import Mathlib

/-!
# Verification of the vinyl cataloging pipeline

Shallow embedding of the repository `tarcisiojr/script-post-instagram`:
the `Vinyl` record model (`src/models/vinyl.py`), the Google-Sheets-backed
catalog store (`src/services/google_sheets.py`), the Drive image pairing
(`src/services/google_drive.py`) and the orchestration in
`src/services/catalog.py`.

The spreadsheet is modeled as the list of its data rows (the header row,
always present after `initialize_sheet`, is implicit: sheet row `r`
corresponds to list index `r - 2`, which is why the source code's
`i + 2` / `row_index` arithmetic appears below).  Cell values are strings;
a cell that was never written reads as the empty string, matching the
Sheets API semantics used by the code.  Python `float` prices are modeled
as exact cents (`Option Nat`); Python string lowercasing is modeled on the
ASCII range, which is what the code relies on.
-/

namespace VinylCatalog

/-! ## Python string primitives used by the code -/

/-- Unicode codepoints of a string, the domain on which we model Python
string operations. -/
def codepoints (s : String) : List Nat := s.data.map Char.toNat

/-- ASCII lowercasing of one codepoint (model of `str.lower` on the
characters this program feeds it). -/
def lowerCp (n : Nat) : Nat := if 65 ≤ n ∧ n ≤ 90 then n + 32 else n

/-- ASCII lowercasing of one character. -/
def pyLowerChar (c : Char) : Char :=
  if 65 ≤ c.toNat ∧ c.toNat ≤ 90 then Char.ofNat (c.toNat + 32) else c

/-- Model of Python `str.lower()` (ASCII range). -/
def pyLower (s : String) : String := String.mk (s.data.map pyLowerChar)

/-- Python whitespace test, as in `str.strip()`. -/
def isPySpace (c : Char) : Bool :=
  c.toNat = 32 ∨ c.toNat = 9 ∨ c.toNat = 10 ∨ c.toNat = 13 ∨ c.toNat = 11 ∨ c.toNat = 12

/-- Model of Python `str.strip()`: drop leading and trailing whitespace. -/
def pyStrip (s : String) : String :=
  String.mk (((s.data.dropWhile isPySpace).reverse.dropWhile isPySpace).reverse)

/-- Model: `str.replace(" ", "_")` at the codepoint level. -/
def spaceToUnderscoreCp (n : Nat) : Nat := if n = 32 then 95 else n

/-- UTF-8 encoding of a list of codepoints (model of `str.encode()`). -/
def utf8Encode (cps : List Nat) : List Nat :=
  (cps.map fun n =>
    if n < 128 then [n]
    else if n < 2048 then [192 + n / 64, 128 + n % 64]
    else if n < 65536 then [224 + n / 4096, 128 + (n / 64) % 64, 128 + n % 64]
    else [240 + n / 262144, 128 + (n / 4096) % 64, 128 + (n / 64) % 64, 128 + n % 64]).flatten

/-! ## MD5 (as used by `hashlib.md5` in `_generate_vinyl_id`)

Machine words are `Nat` reduced modulo `2 ^ 32` explicitly. -/

/-- Model: `2 ^ 32`, the word modulus of MD5. -/
def m32 : Nat := 4294967296

/-- 32-bit left rotation. -/
def rotl32 (x n : Nat) : Nat := ((x <<< n) ||| (x >>> (32 - n))) % m32

/-- Bitwise complement on 32-bit words. -/
def not32 (x : Nat) : Nat := x ^^^ 4294967295

/-- The per-round shift amounts of MD5. -/
def md5S : List Nat :=
  [7, 12, 17, 22, 7, 12, 17, 22, 7, 12, 17, 22, 7, 12, 17, 22,
   5, 9, 14, 20, 5, 9, 14, 20, 5, 9, 14, 20, 5, 9, 14, 20,
   4, 11, 16, 23, 4, 11, 16, 23, 4, 11, 16, 23, 4, 11, 16, 23,
   6, 10, 15, 21, 6, 10, 15, 21, 6, 10, 15, 21, 6, 10, 15, 21]

/-- The sine-derived round constants of MD5. -/
def md5K : List Nat :=
  [3614090360, 3905402710, 606105819, 3250441966, 4118548399, 1200080426,
   2821735955, 4249261313, 1770035416, 2336552879, 4294925233, 2304563134,
   1804603682, 4254626195, 2792965006, 1236535329, 4129170786, 3225465664,
   643717713, 3921069994, 3593408605, 38016083, 3634488961, 3889429448,
   568446438, 3275163606, 4107603335, 1163531501, 2850285829, 4243563512,
   1735328473, 2368359562, 4294588738, 2272392833, 1839030562, 4259657740,
   2763975236, 1272893353, 4139469664, 3200236656, 681279174, 3936430074,
   3572445317, 76029189, 3654602809, 3873151461, 530742520, 3299628645,
   4096336452, 1126891415, 2878612391, 4237533241, 1700485571, 2399980690,
   4293915773, 2240044497, 1873313359, 4264355552, 2734768916, 1309151649,
   4149444226, 3174756917, 718787259, 3951481745]

/-- MD5 padding: `0x80`, zero bytes to 56 mod 64, then the 8-byte
little-endian bit length. -/
def md5Pad (msg : List Nat) : List Nat :=
  let len := msg.length
  let zeros := (119 - len % 64) % 64
  let bitLen := (8 * len) % 18446744073709551616
  msg ++ [128] ++ List.replicate zeros 0 ++
    (List.range 8).map (fun i => (bitLen >>> (8 * i)) % 256)

/-- Split a 64-byte block into 16 little-endian 32-bit words. -/
def md5Words (block : List Nat) : List Nat :=
  (List.range 16).map fun j =>
    block.getD (4 * j) 0 + 256 * block.getD (4 * j + 1) 0 +
      65536 * block.getD (4 * j + 2) 0 + 16777216 * block.getD (4 * j + 3) 0

/-- One of the 64 MD5 rounds. -/
def md5Step (words : List Nat) (st : Nat × Nat × Nat × Nat) (i : Nat) :
    Nat × Nat × Nat × Nat :=
  let (a, b, c, d) := st
  let fg : Nat × Nat :=
    if i < 16 then ((b &&& c) ||| (not32 b &&& d), i)
    else if i < 32 then ((d &&& b) ||| (not32 d &&& c), (5 * i + 1) % 16)
    else if i < 48 then (b ^^^ c ^^^ d, (3 * i + 5) % 16)
    else (c ^^^ (b ||| not32 d), (7 * i) % 16)
  let f := (fg.1 + a + md5K.getD i 0 + words.getD fg.2 0) % m32
  (d, (b + rotl32 f (md5S.getD i 0)) % m32, b, c)

/-- Process one 64-byte block. -/
def md5Block (st : Nat × Nat × Nat × Nat) (block : List Nat) :
    Nat × Nat × Nat × Nat :=
  let words := md5Words block
  let (a, b, c, d) := (List.range 64).foldl (md5Step words) st
  ((st.1 + a) % m32, (st.2.1 + b) % m32, (st.2.2.1 + c) % m32, (st.2.2.2 + d) % m32)

/-- Little-endian bytes of a 32-bit word. -/
def wordBytesLE (x : Nat) : List Nat :=
  [x % 256, x / 256 % 256, x / 65536 % 256, x / 16777216 % 256]

/-- The 16-byte MD5 digest of a byte string. -/
def md5Bytes (msg : List Nat) : List Nat :=
  let padded := md5Pad msg
  let blocks := (List.range (padded.length / 64)).map
    (fun i => (padded.drop (64 * i)).take 64)
  let st := blocks.foldl md5Block (1732584193, 4023233417, 2562383102, 271733878)
  wordBytesLE st.1 ++ wordBytesLE st.2.1 ++ wordBytesLE st.2.2.1 ++ wordBytesLE st.2.2.2

/-- Uppercase hexadecimal digit table (`hexdigest()[:8].upper()` uppercases
the `a`–`f` digits; digits `0`–`9` are unchanged, so applying the uppercase
table to the first eight digest nibbles is the same computation). -/
def hexUpper (n : Nat) : Char :=
  ['0', '1', '2', '3', '4', '5', '6', '7', '8', '9',
   'A', 'B', 'C', 'D', 'E', 'F'].getD n '0'

/-- The sequence of hexadecimal digit values (nibbles) of a digest. -/
def digestNibbles (bytes : List Nat) : List Nat :=
  (bytes.map fun b => [b / 16, b % 16]).flatten

/-- Model: `GoogleSheetsService._generate_vinyl_id`: MD5 of
`f"{nome}_{artista}".lower().replace(" ", "_")`, first 8 hex digits,
uppercased. -/
def generate_vinyl_id (nome artista : String) : String :=
  let text := ((codepoints nome ++ [95] ++ codepoints artista).map lowerCp).map
    spaceToUnderscoreCp
  String.mk (((digestNibbles (md5Bytes (utf8Encode text))).take 8).map hexUpper)

/-! ## The `Vinyl` record (`src/models/vinyl.py`) -/

/-- Timestamp, as the fields `datetime.strftime("%d/%m/%Y %H:%M")` reads. -/
structure PyDateTime where
  day : Nat
  month : Nat
  year : Nat
  hour : Nat
  minute : Nat
deriving DecidableEq, Repr

/-- Two-digit zero padding, as in `%d`, `%m`, `%H`, `%M`. -/
def pad2 (n : Nat) : String := if n < 10 then "0" ++ toString n else toString n

/-- Model: `strftime("%d/%m/%Y %H:%M")`, the timestamp serialization used in both
`Vinyl.to_dict` and `update_status`. -/
def fmtDateTime (d : PyDateTime) : String :=
  pad2 d.day ++ "/" ++ pad2 d.month ++ "/" ++ toString d.year ++ " " ++
    pad2 d.hour ++ ":" ++ pad2 d.minute

/-- The `Vinyl` dataclass.  Prices (Python `float`) are modeled as exact
cents, so `preco = some 0` is Python's `0.0` and `none` is Python's `None`;
the truthiness test `if self.preco` is false exactly on those two. -/
structure Vinyl where
  nome : String
  artista : String
  vinyl_id : Option String := none
  ano : Option String := none
  descricao : Option String := none
  condicao : Option String := none
  preco : Option Nat := none
  post_venda : Option String := none
  status : String := "pendente"
  data_publicacao : Option PyDateTime := none
  imagem_frente : Option String := none
  imagem_verso : Option String := none
  imagem1_url : Option String := none
  imagem2_url : Option String := none
deriving DecidableEq, Repr

/-- Serialization of the price column:
`f"R$ {self.preco:.2f}" if self.preco else ""`.  Python truthiness makes
both `None` and `0.0` take the `else` branch. -/
def priceSerial : Option Nat → String
  | none => ""
  | some c => if c = 0 then "" else "R$ " ++ toString (c / 100) ++ "." ++ pad2 (c % 100)

/-- Serialization of the `Data Publicação` column in `to_dict`. -/
def dateSerial : Option PyDateTime → String
  | none => ""
  | some d => fmtDateTime d

/-- Model: `Vinyl.to_dict`, in the source's key order. -/
def Vinyl.to_dict (v : Vinyl) : List (String × String) :=
  [("#", v.vinyl_id.getD ""),
   ("Nome", v.nome),
   ("Artista", v.artista),
   ("Ano", v.ano.getD ""),
   ("Descrição", v.descricao.getD ""),
   ("Condição", v.condicao.getD ""),
   ("Preço", priceSerial v.preco),
   ("Post Venda", v.post_venda.getD ""),
   ("Status", v.status),
   ("Data Publicação", dateSerial v.data_publicacao),
   ("imagem1", v.imagem1_url.getD ""),
   ("imagem2", v.imagem2_url.getD "")]

/-! ## The sheet-backed catalog store (`src/services/google_sheets.py`) -/

/-- Model: `GoogleSheetsService._get_headers`: the canonical column order. -/
def headers : List String :=
  ["#", "Nome", "Artista", "Ano", "Descrição", "Condição",
   "Preço", "Post Venda", "Status", "imagem1", "imagem2",
   "Data Publicação"]

/-- The catalog state: the list of data rows of the sheet.  Sheet row `r`
(1-based, header at row 1) is list index `r - 2`. -/
abbrev Sheet : Type := List (List String)

/-- Model: `while len(row) < len(headers): row.append("")` — pad a row to the
canonical column count with empty strings. -/
def padRow (row : List String) : List String :=
  row ++ List.replicate (headers.length - row.length) ""

/-- Model: `[vinyl_data.get(header, "") for header in self._get_headers()]`:
the full-row encoding written by both `update_vinyl` and `add_vinyl`. -/
def record_to_row (v : Vinyl) : List String :=
  headers.map fun h => (v.to_dict.lookup h).getD ""

/-- Model: `dict(zip(headers, row))` after padding: the loosely-typed record view
produced by `get_all_vinyls` / `get_pending_vinyls`. -/
def row_to_record (row : List String) : List (String × String) :=
  headers.zip (padRow row)

/-- Lookup of one field of a decoded record view (`dict.get(h, "")`). -/
def dictGet (d : List (String × String)) (h : String) : String :=
  (d.lookup h).getD ""

/-- The cell at data-row `i`, column `j`; absent cells read `""`. -/
def cellAt (s : Sheet) (i j : Nat) : String := (s.getD i []).getD j ""

/-- First data-row index (from `from_`) whose `#` column equals `id`;
helper for `find_vinyl_by_id`'s enumeration of `get_all_vinyls`. -/
def findIdxFrom (id : String) (from_ : Nat) : List (List String) → Option Nat
  | [] => none
  | row :: rest =>
    if row.getD 0 "" = id then some from_ else findIdxFrom id (from_ + 1) rest

/-- Model: `GoogleSheetsService.find_vinyl_by_id`: scan all rows comparing the `#`
column, returning the sheet row number (`i + 2`) of the first match. -/
def find_vinyl_by_id (s : Sheet) (id : String) : Option Nat :=
  (findIdxFrom id 0 s).map (· + 2)

/-- Model: `GoogleSheetsService.update_vinyl`: overwrite sheet row `row_index`
(range `A{row_index}:L{row_index}`) with the full encoded row. -/
def update_vinyl (s : Sheet) (row_index : Nat) (v : Vinyl) : Sheet :=
  s.set (row_index - 2) (record_to_row v)

/-- Model: `GoogleSheetsService.add_vinyl`: `next_row = len(values) + 1` over
column A (header plus data rows), so the new row lands right after the
existing data. -/
def add_vinyl (s : Sheet) (v : Vinyl) : Sheet :=
  s ++ [record_to_row v]

/-- Second half of `add_or_update_vinyl`: find the record's identifier and
overwrite the found row, or append a new one. -/
def upsertWith (s : Sheet) (v' : Vinyl) : Sheet :=
  match find_vinyl_by_id s (v'.vinyl_id.getD "") with
  | some ri => update_vinyl s ri v'
  | none => add_vinyl s v'

/-- Model: `GoogleSheetsService.add_or_update_vinyl` (the upsert): generate the
identifier when unset (Python truthiness: `None` or `""`), then find and
overwrite, or append. -/
def add_or_update_vinyl (s : Sheet) (v : Vinyl) : Sheet :=
  upsertWith s (if v.vinyl_id.getD "" = ""
    then { v with vinyl_id := some (generate_vinyl_id v.nome v.artista) }
    else v)

/-- The data rows whose `#` column holds `id`. -/
def rowsWithId (s : Sheet) (id : String) : List (List String) :=
  s.filter fun row => row.getD 0 "" == id

/-- Write one cell of a data row, extending the row with empty cells if it
is shorter than the target column (grid semantics of a ranged write). -/
def setCell (s : Sheet) (i j : Nat) (val : String) : Sheet :=
  s.set i ((s.getD i [] ++ List.replicate (j + 1 - (s.getD i []).length) "").set j val)

/-- Model: `GoogleSheetsService.update_status`: write the status to column I
(index 8) of sheet row `row_index`, and, when a publication timestamp is
supplied, its serialization to column L (index 11). -/
def update_status (s : Sheet) (row_index : Nat) (status : String)
    (published_date : Option PyDateTime) : Sheet :=
  let s1 := setCell s (row_index - 2) 8 status
  match published_date with
  | some d => setCell s1 (row_index - 2) 11 (fmtDateTime d)
  | none => s1

/-- The eligibility test of `get_pending_vinyls` on a padded row:
`Status` lowercased equals `"pendente"`, and `Nome` and `Post Venda` are
truthy (non-empty). -/
def pendingPred (row : List String) : Bool :=
  pyLower (row.getD 8 "") == "pendente" && !(row.getD 1 "" == "") &&
    !(row.getD 7 "" == "")

/-- Enumeration loop of `get_pending_vinyls`: pad each row, keep those
passing the eligibility test, attaching the sheet row number `i + 2`. -/
def pendingAux (i : Nat) : List (List String) → List (Nat × List String)
  | [] => []
  | row :: rest =>
    let padded := padRow row
    if pendingPred padded then (i + 2, padded) :: pendingAux (i + 1) rest
    else pendingAux (i + 1) rest

/-- Model: `GoogleSheetsService.get_pending_vinyls`. -/
def get_pending_vinyls (s : Sheet) : List (Nat × List String) :=
  pendingAux 0 s

/-! ## Drive URL parsing (`CatalogService._extract_file_id_from_url`) -/

/-- The fixed literal part of the pattern
`https://drive\.google\.com/file/d/([a-zA-Z0-9_-]+)`. -/
def drivePfx : List Char := "https://drive.google.com/file/d/".data

/-- The character class `[a-zA-Z0-9_-]` of the pattern's capture group. -/
def isIdChar (c : Char) : Bool :=
  (97 ≤ c.toNat ∧ c.toNat ≤ 122) ∨ (65 ≤ c.toNat ∧ c.toNat ≤ 90) ∨
    (48 ≤ c.toNat ∧ c.toNat ≤ 57) ∨ c.toNat = 95 ∨ c.toNat = 45

/-- Whether `p` is an initial segment of `l`. -/
def matchesAt (p l : List Char) : Bool :=
  match p, l with
  | [], _ => true
  | _ :: _, [] => false
  | c :: p', x :: l' => c == x && matchesAt p' l'

/-- Model: `re.search` for the Drive pattern: at each position, try the literal
part followed by a non-empty greedy run of id characters; otherwise move
one character right.  Returns the capture group of the leftmost match. -/
def searchFileId : List Char → Option (List Char)
  | [] => none
  | c :: rest =>
    if matchesAt drivePfx (c :: rest) then
      let run := ((c :: rest).drop drivePfx.length).takeWhile isIdChar
      if run.isEmpty then searchFileId rest else some run
    else searchFileId rest

/-- Whether the literal part of the pattern occurs anywhere in `l`. -/
def containsDrivePfx : List Char → Bool
  | [] => false
  | c :: rest => matchesAt drivePfx (c :: rest) || containsDrivePfx rest

/-- Model: `CatalogService._extract_file_id_from_url`: total extraction of the
Drive file id, `none` on any string the pattern does not match (the
`if not drive_url` guard is subsumed: searching an empty string fails). -/
def extract_file_id_from_url (drive_url : String) : Option String :=
  (searchFileId drive_url.data).map fun cs => String.mk cs

/-- Model: `GoogleDriveService.get_drive_url`. -/
def get_drive_url (file_id : String) : String :=
  "https://drive.google.com/file/d/" ++ file_id ++ "/view"

/-! ## Image pairing (`GoogleDriveService.download_all_images`) -/

/-- Metadata of one downloaded image, in the order produced by
`list_images` (`orderBy='modifiedTime desc'`). -/
structure DriveFile where
  id : String
  name : String
  modifiedTime : String
deriving DecidableEq, Repr

/-- The grouping loop `for i in range(0, len(files), 2)`: consecutive
pairs `(front, back)`; a trailing odd element becomes a front-only pair. -/
def pairUp {α : Type} : List α → List (α × Option α)
  | [] => []
  | [a] => [(a, none)]
  | a :: b :: rest => (a, some b) :: pairUp rest

/-- Model: `GoogleDriveService.download_all_images`, on the metadata of the files
it successfully downloaded (kept in `list_images` order, i.e. modification
time descending): group them into front/back pairs. -/
def download_all_images (downloaded_files : List DriveFile) :
    List (DriveFile × Option DriveFile) :=
  pairUp downloaded_files

/-! ## The cataloging flow (`CatalogService.scan_and_catalog`)

Each iteration of the loop makes external calls (Gemini analysis, URL
attachment, post generation) that may raise, and then an upsert that
reports success or failure.  An item is modeled by the outcome of its
iteration: `Except.error msg` when some step raised `msg`, `Except.ok b`
when the iteration reached `add_or_update_vinyl` and it returned `b`. -/

/-- The `for` loop of `scan_and_catalog`: exceptions are caught per item
(`except ... continue`); `cataloged_count` grows only on a `True` upsert. -/
def scanLoop (cataloged_count : Nat) : List (Except String Bool) → Nat
  | [] => cataloged_count
  | item :: rest =>
    match item with
    | .error _ => scanLoop cataloged_count rest
    | .ok true => scanLoop (cataloged_count + 1) rest
    | .ok false => scanLoop cataloged_count rest

/-- Model: `CatalogService.scan_and_catalog`, from the per-item outcomes of its
batch: the returned number of cataloged records. -/
def scan_and_catalog (items : List (Except String Bool)) : Nat :=
  scanLoop 0 items

/-! ## Basic facts about padding and cell writes -/

theorem getD_append_replicate (row : List String) (n i : Nat) :
    (row ++ List.replicate n "").getD i "" = row.getD i "" := by
  simp only [List.getD_eq_getElem?_getD]
  rcases Nat.lt_or_ge i row.length with h | h
  · rw [List.getElem?_append_left h]
  · rw [List.getElem?_append_right h, List.getElem?_replicate,
      List.getElem?_eq_none h]
    split <;> rfl

theorem getD_padRow (row : List String) (i : Nat) :
    (padRow row).getD i "" = row.getD i "" :=
  getD_append_replicate row _ i

theorem length_padRow (row : List String) (h : row.length ≤ headers.length) :
    (padRow row).length = headers.length := by
  simp only [padRow, List.length_append, List.length_replicate]
  omega

theorem length_setCell (s : Sheet) (i j : Nat) (v : String) :
    (setCell s i j v).length = s.length := by
  simp [setCell]

theorem getD_list_set_same {α : Type _} (s : List α) (i : Nat) (x d : α)
    (h : i < s.length) : (s.set i x).getD i d = x := by
  rw [List.getD_eq_getElem?_getD, List.getElem?_set_self h]
  rfl

theorem getD_list_set_other {α : Type _} (s : List α) (i k : Nat) (x d : α)
    (h : i ≠ k) : (s.set i x).getD k d = s.getD k d := by
  rw [List.getD_eq_getElem?_getD, List.getElem?_set_ne h,
    ← List.getD_eq_getElem?_getD]

theorem getD_set_padded_same (row : List String) (j : Nat) (v : String) :
    ((row ++ List.replicate (j + 1 - row.length) "").set j v).getD j "" = v := by
  have hlen : j < (row ++ List.replicate (j + 1 - row.length) "").length := by
    simp only [List.length_append, List.length_replicate]
    omega
  exact getD_list_set_same _ j v "" hlen

theorem getD_set_padded_other (row : List String) (j l : Nat) (v : String)
    (h : j ≠ l) :
    ((row ++ List.replicate (j + 1 - row.length) "").set j v).getD l "" =
      row.getD l "" := by
  rw [getD_list_set_other _ _ _ _ _ h, getD_append_replicate]

theorem cellAt_setCell_same (s : Sheet) (i j : Nat) (v : String)
    (h : i < s.length) : cellAt (setCell s i j v) i j = v := by
  unfold cellAt setCell
  rw [getD_list_set_same _ _ _ _ h]
  exact getD_set_padded_same _ _ _

theorem cellAt_setCell_other (s : Sheet) (i j k l : Nat) (v : String)
    (h : i ≠ k ∨ j ≠ l) : cellAt (setCell s i j v) k l = cellAt s k l := by
  rcases h with h | h
  · unfold cellAt setCell
    rw [getD_list_set_other _ _ _ _ _ h]
  · rcases eq_or_ne i k with rfl | hik
    · rcases Nat.lt_or_ge i s.length with hi | hi
      · unfold cellAt setCell
        rw [getD_list_set_same _ _ _ _ hi]
        exact getD_set_padded_other _ _ _ _ h
      · have heq : setCell s i j v = s := by
          unfold setCell
          exact List.set_eq_of_length_le hi
        rw [heq]
    · unfold cellAt setCell
      rw [getD_list_set_other _ _ _ _ _ hik]

/-! ## C4: short rows are padded, missing trailing columns read empty -/

/-- C4: a row with fewer columns than the canonical header list is padded
with empty strings to the canonical column count before mapping, so the
record view is total: every column index below the header count reads the
original cell when present and the empty string otherwise. -/
theorem short_row_padding (row : List String) (h : row.length < headers.length) :
    (padRow row).length = headers.length ∧
    ∀ i, i < headers.length →
      (padRow row).getD i "" = if hi : i < row.length then row.get ⟨i, hi⟩ else "" := by
  refine ⟨length_padRow row h.le, fun i _ => ?_⟩
  rw [getD_padRow]
  split
  · next hi => simp [List.getD_eq_getElem?_getD, List.getElem?_eq_getElem hi]
  · next hi => simp [List.getD_eq_getElem?_getD, List.getElem?_eq_none (Nat.ge_of_not_lt hi)]

/-- Witness for C4 at the concrete two-column row `["a", "b"]`. -/
theorem short_row_padding_witness :
    (["a", "b"] : List String).length < headers.length ∧
    (padRow ["a", "b"]).length = headers.length :=
  ⟨by decide, (short_row_padding ["a", "b"] (by decide)).1⟩

/-! ## C3: `update_status` writes only the status and timestamp cells -/

/-- C3: `update_status` writes the status cell (column index 8) of the
target row and, exactly when a publication timestamp is supplied, its
timestamp cell (column index 11); every other cell of that row, every
other row, and the row count are unchanged. -/
theorem update_status_frame (s : Sheet) (ri : Nat) (st : String)
    (pub : Option PyDateTime) (hlt : ri - 2 < s.length) :
    (update_status s ri st pub).length = s.length ∧
    cellAt (update_status s ri st pub) (ri - 2) 8 = st ∧
    (∀ d, pub = some d →
      cellAt (update_status s ri st pub) (ri - 2) 11 = fmtDateTime d) ∧
    (∀ i j, i ≠ ri - 2 →
      cellAt (update_status s ri st pub) i j = cellAt s i j) ∧
    (∀ j, j ≠ 8 → j ≠ 11 →
      cellAt (update_status s ri st pub) (ri - 2) j = cellAt s (ri - 2) j) ∧
    (pub = none → ∀ j, j ≠ 8 →
      cellAt (update_status s ri st pub) (ri - 2) j = cellAt s (ri - 2) j) := by
  cases pub with
  | none =>
    have hup : update_status s ri st none = setCell s (ri - 2) 8 st := rfl
    rw [hup]
    refine ⟨length_setCell .., cellAt_setCell_same _ _ _ _ hlt, ?_, ?_, ?_, ?_⟩
    · intro d hd
      exact nomatch hd
    · intro i j hi
      exact cellAt_setCell_other _ _ _ _ _ _ (Or.inl (Ne.symm hi))
    · intro j h8 _
      exact cellAt_setCell_other _ _ _ _ _ _ (Or.inr (Ne.symm h8))
    · intro _ j h8
      exact cellAt_setCell_other _ _ _ _ _ _ (Or.inr (Ne.symm h8))
  | some d =>
    have hup : update_status s ri st (some d) =
        setCell (setCell s (ri - 2) 8 st) (ri - 2) 11 (fmtDateTime d) := rfl
    have hlen1 : (setCell s (ri - 2) 8 st).length = s.length := length_setCell ..
    rw [hup]
    refine ⟨?_, ?_, ?_, ?_, ?_, ?_⟩
    · rw [length_setCell, length_setCell]
    · rw [cellAt_setCell_other _ _ _ _ _ _ (Or.inr (by omega : (11 : Nat) ≠ 8))]
      exact cellAt_setCell_same _ _ _ _ hlt
    · intro d' hd'
      cases hd'
      exact cellAt_setCell_same _ _ _ _ (hlen1 ▸ hlt)
    · intro i j hi
      rw [cellAt_setCell_other _ _ _ _ _ _ (Or.inl (Ne.symm hi)),
        cellAt_setCell_other _ _ _ _ _ _ (Or.inl (Ne.symm hi))]
    · intro j h8 h11
      rw [cellAt_setCell_other _ _ _ _ _ _ (Or.inr (Ne.symm h11)),
        cellAt_setCell_other _ _ _ _ _ _ (Or.inr (Ne.symm h8))]
    · intro hn
      exact nomatch hn

/-- Witness for C3 at a concrete one-row sheet and sheet row 2. -/
theorem update_status_frame_witness :
    (2 : Nat) - 2 < ([["a", "b", "c", "d", "e", "f", "g", "h", "i", "j", "k", "l"]] : Sheet).length ∧
    cellAt (update_status [["a", "b", "c", "d", "e", "f", "g", "h", "i", "j", "k", "l"]]
      2 "publicado" (some ⟨12, 10, 2026, 9, 30⟩)) 0 8 = "publicado" :=
  ⟨by decide,
    (update_status_frame [["a", "b", "c", "d", "e", "f", "g", "h", "i", "j", "k", "l"]]
      2 "publicado" (some ⟨12, 10, 2026, 9, 30⟩) (by decide)).2.1⟩

/-! ## C5: the publish-eligibility filter -/

theorem mem_pendingAux (rows : List (List String)) :
    ∀ (k j : Nat) (row : List String),
      (j, row) ∈ pendingAux k rows ↔
        ∃ i, i < rows.length ∧ j = k + i + 2 ∧ row = padRow (rows.getD i []) ∧
          pendingPred row = true := by
  induction rows with
  | nil => simp [pendingAux]
  | cons r rest ih =>
    intro k j row
    unfold pendingAux
    by_cases hp : pendingPred (padRow r) = true
    · rw [if_pos hp]
      simp only [List.mem_cons]
      constructor
      · rintro (heq | hmem)
        · obtain ⟨rfl, rfl⟩ := Prod.mk.injEq .. ▸ heq
          exact ⟨0, by simp, by omega, by simp, hp⟩
        · obtain ⟨i, hi, hj, hrow, hpred⟩ := (ih (k + 1) j row).mp hmem
          exact ⟨i + 1, by simpa using hi, by omega, by simpa using hrow, hpred⟩
      · rintro ⟨i, hi, hj, hrow, hpred⟩
        cases i with
        | zero =>
          left
          simp only [List.getD_cons_zero] at hrow
          simp [hj, hrow]
        | succ i' =>
          right
          refine (ih (k + 1) j row).mpr ⟨i', ?_, by omega, ?_, hpred⟩
          · simpa using hi
          · simpa using hrow
    · rw [if_neg hp]
      rw [ih (k + 1) j row]
      constructor
      · rintro ⟨i, hi, hj, hrow, hpred⟩
        exact ⟨i + 1, by simpa using hi, by omega, by simpa using hrow, hpred⟩
      · rintro ⟨i, hi, hj, hrow, hpred⟩
        cases i with
        | zero =>
          exfalso
          simp only [List.getD_cons_zero] at hrow
          exact hp (hrow ▸ hpred)
        | succ i' =>
          exact ⟨i', by simpa using hi, by omega, by simpa using hrow, hpred⟩

/-- C5: membership in `get_pending_vinyls` is exactly: the entry is the
padded data row at some index (tagged with its sheet row number `i + 2`),
its lowercased status is `"pendente"`, and its name and listing-text
(`Post Venda`) cells are non-empty.  In particular a `"pendente"` row with
an empty name or empty listing text is excluded, and a `"publicado"` row
is excluded whatever its other fields. -/
theorem pending_eligibility (s : Sheet) (j : Nat) (row : List String) :
    (j, row) ∈ get_pending_vinyls s ↔
      (∃ i, i < s.length ∧ j = i + 2 ∧ row = padRow (s.getD i [])) ∧
      pyLower (row.getD 8 "") = "pendente" ∧
      row.getD 1 "" ≠ "" ∧ row.getD 7 "" ≠ "" := by
  rw [get_pending_vinyls, mem_pendingAux]
  constructor
  · rintro ⟨i, hi, hj, hrow, hpred⟩
    simp only [pendingPred, Bool.and_eq_true, beq_iff_eq, Bool.not_eq_eq_eq_not,
      Bool.not_true, beq_eq_false_iff_ne, ne_eq] at hpred
    exact ⟨⟨i, hi, by omega, hrow⟩, hpred.1.1, hpred.1.2, hpred.2⟩
  · rintro ⟨⟨i, hi, hj, hrow⟩, hst, hn, hpv⟩
    refine ⟨i, hi, by omega, hrow, ?_⟩
    simp only [pendingPred, Bool.and_eq_true, beq_iff_eq, Bool.not_eq_eq_eq_not,
      Bool.not_true, beq_eq_false_iff_ne, ne_eq]
    exact ⟨⟨hst, hn⟩, hpv⟩

/-! ## C7: image pairing order -/

theorem pairUp_append_singleton {α : Type} :
    ∀ (l : List α) (x : α), l.length % 2 = 0 →
      pairUp (l ++ [x]) = pairUp l ++ [(x, none)]
  | [], _, _ => rfl
  | [_], _, h => by simp at h
  | a :: b :: rest, x, h => by
    have hrest : rest.length % 2 = 0 := by
      simp only [List.length_cons] at h
      omega
    have ih := pairUp_append_singleton rest x hrest
    simp only [List.cons_append, pairUp, List.append_eq]
    rw [ih]

/-- C7: `download_all_images` pairs the downloaded files (kept in the
modification-time-descending order of `list_images`) two by two as
`(front, back)` — so of two adjacent files the newer (earlier in the list)
becomes the front, whatever the filenames — a singleton list gives one
front-only pair, and an odd trailing file becomes a front-only pair with
no back. -/
theorem image_pairing :
    (∀ (newer older : DriveFile) (rest : List DriveFile),
      download_all_images (newer :: older :: rest) =
        (newer, some older) :: download_all_images rest) ∧
    (∀ f : DriveFile, download_all_images [f] = [(f, none)]) ∧
    (∀ (l : List DriveFile) (x : DriveFile), l.length % 2 = 0 →
      download_all_images (l ++ [x]) = download_all_images l ++ [(x, none)]) :=
  ⟨fun _ _ _ => rfl, fun _ => rfl, fun l x h => pairUp_append_singleton l x h⟩

/-- Witness for C7: the spec's scenario, a newer file named `back.jpg`
before an older one named `front.jpg`, plus an odd third file. -/
theorem image_pairing_witness :
    ([⟨"id2", "back.jpg", "T2"⟩, ⟨"id1", "front.jpg", "T1"⟩] : List DriveFile).length % 2 = 0 ∧
    download_all_images ([⟨"id2", "back.jpg", "T2"⟩, ⟨"id1", "front.jpg", "T1"⟩] ++
        [⟨"id0", "odd.jpg", "T0"⟩]) =
      download_all_images [⟨"id2", "back.jpg", "T2"⟩, ⟨"id1", "front.jpg", "T1"⟩] ++
        [(⟨"id0", "odd.jpg", "T0"⟩, none)] :=
  ⟨by decide, image_pairing.2.2 _ _ (by decide)⟩

/-! ## C9: per-item isolation and the success count -/

theorem scanLoop_acc (items : List (Except String Bool)) :
    ∀ acc, scanLoop acc items = acc + scanLoop 0 items := by
  induction items with
  | nil => intro acc; simp [scanLoop]
  | cons item rest ih =>
    intro acc
    cases item with
    | error e => simpa [scanLoop] using ih acc
    | ok b =>
      cases b with
      | true =>
        simp only [scanLoop]
        rw [ih (acc + 1), ih 1]
        omega
      | false => simpa [scanLoop] using ih acc

/-- C9: in `scan_and_catalog`, an item whose processing raises is skipped
without aborting the batch (removing it from anywhere in the batch leaves
the returned count unchanged), and the returned count is exactly the
number of items whose upsert reported `True` — raised items and failed
upserts are not counted. -/
theorem batch_isolation :
    (∀ (pre post : List (Except String Bool)) (msg : String),
      scan_and_catalog (pre ++ Except.error msg :: post) =
        scan_and_catalog (pre ++ post)) ∧
    (∀ items : List (Except String Bool),
      scan_and_catalog items =
        (items.filter fun it =>
          match it with | .ok true => true | _ => false).length) := by
  constructor
  · intro pre post msg
    induction pre with
    | nil => rfl
    | cons item rest ih =>
      cases item with
      | error e => simpa [scan_and_catalog, scanLoop] using ih
      | ok b =>
        cases b with
        | true =>
          simp only [scan_and_catalog, List.cons_append, scanLoop]
          rw [scanLoop_acc _ 1, scanLoop_acc _ 1]
          simpa [scan_and_catalog] using ih
        | false => simpa [scan_and_catalog, scanLoop] using ih
  · intro items
    induction items with
    | nil => rfl
    | cons item rest ih =>
      cases item with
      | error e => simpa [scan_and_catalog, scanLoop, List.filter] using ih
      | ok b =>
        cases b with
        | true =>
          simp only [scan_and_catalog, scanLoop, List.filter, List.length_cons]
          rw [scanLoop_acc _ 1]
          simpa [scan_and_catalog, Nat.add_comm] using ih
        | false => simpa [scan_and_catalog, scanLoop, List.filter] using ih

/-! ## C6: Drive file-id extraction is total -/

theorem searchFileId_none_of_not_contains :
    ∀ cs : List Char, containsDrivePfx cs = false → searchFileId cs = none := by
  intro cs
  induction cs with
  | nil => intro _; rfl
  | cons c rest ih =>
    intro h
    simp only [containsDrivePfx, Bool.or_eq_false_iff] at h
    simp only [searchFileId, h.1, Bool.false_eq_true, if_false]
    exact ih h.2

/-- C6: extraction of the Drive file id is a total function (it returns
`none` rather than raising): on the canonical URL it yields the path
segment `ABC123xyz` between the fixed prefix and the next slash, on the
empty string it yields `none`, and on any string not containing the fixed
URL prefix it yields `none`. -/
theorem url_extraction :
    extract_file_id_from_url "https://drive.google.com/file/d/ABC123xyz/view" =
      some "ABC123xyz" ∧
    extract_file_id_from_url "" = none ∧
    (∀ url : String, containsDrivePfx url.data = false →
      extract_file_id_from_url url = none) := by
  refine ⟨by decide, rfl, fun url h => ?_⟩
  simp [extract_file_id_from_url, searchFileId_none_of_not_contains _ h]

/-- Witness for C6 on a string that does not contain the URL template. -/
theorem url_extraction_witness :
    containsDrivePfx ("not a url").data = false ∧
    extract_file_id_from_url "not a url" = none :=
  ⟨by decide, url_extraction.2.2 "not a url" (by decide)⟩

/-! ## C8 and C10: the row codec -/

/-- C8: the codec round-trips.  Encoding a `Vinyl` always yields a row of
the full canonical width (padding is a no-op on it), and decoding that row
reads back every string-representable field exactly: the serialization of
each optional field is the empty string when the field is absent, the
price column carries `priceSerial` (its localized `R$`-string), the
timestamp column its formatted string. -/
theorem codec_round_trip (v : Vinyl) :
    padRow (record_to_row v) = record_to_row v ∧
    dictGet (row_to_record (record_to_row v)) "#" = v.vinyl_id.getD "" ∧
    dictGet (row_to_record (record_to_row v)) "Nome" = v.nome ∧
    dictGet (row_to_record (record_to_row v)) "Artista" = v.artista ∧
    dictGet (row_to_record (record_to_row v)) "Ano" = v.ano.getD "" ∧
    dictGet (row_to_record (record_to_row v)) "Descrição" = v.descricao.getD "" ∧
    dictGet (row_to_record (record_to_row v)) "Condição" = v.condicao.getD "" ∧
    dictGet (row_to_record (record_to_row v)) "Preço" = priceSerial v.preco ∧
    dictGet (row_to_record (record_to_row v)) "Post Venda" = v.post_venda.getD "" ∧
    dictGet (row_to_record (record_to_row v)) "Status" = v.status ∧
    dictGet (row_to_record (record_to_row v)) "Data Publicação" =
      dateSerial v.data_publicacao ∧
    dictGet (row_to_record (record_to_row v)) "imagem1" = v.imagem1_url.getD "" ∧
    dictGet (row_to_record (record_to_row v)) "imagem2" = v.imagem2_url.getD "" :=
  ⟨rfl, rfl, rfl, rfl, rfl, rfl, rfl, rfl, rfl, rfl, rfl, rfl, rfl⟩

/-- C10: a price of exactly `0.0` encodes to the empty price cell, exactly
like an absent price — the encoder tests the field for Python truthiness,
so the two are indistinguishable in the stored row. -/
theorem zero_price_indistinguishable (v : Vinyl) :
    record_to_row { v with preco := some 0 } =
      record_to_row { v with preco := none } ∧
    priceSerial (some 0) = "" ∧ priceSerial none = "" :=
  ⟨rfl, rfl, rfl⟩

/-! ## C1: the identifier function -/

theorem toNat_pyLowerChar (c : Char) : (pyLowerChar c).toNat = lowerCp c.toNat := by
  unfold pyLowerChar lowerCp
  split
  · next hc =>
    have hv : (c.toNat + 32).isValidChar := Or.inl (by omega)
    rw [Char.ofNat, dif_pos hv]
    rfl
  · rfl

theorem codepoints_pyLower (s : String) :
    codepoints (pyLower s) = (codepoints s).map lowerCp := by
  simp only [codepoints, pyLower, List.map_map]
  exact List.map_congr_left fun c _ => toNat_pyLowerChar c

theorem lowerCp_idem (n : Nat) : lowerCp (lowerCp n) = lowerCp n := by
  unfold lowerCp
  split
  · next h => rw [if_neg (by omega : ¬(65 ≤ n + 32 ∧ n + 32 ≤ 90))]
  · rfl

/-- C1 (amended): the identifier function is deterministic, and lowercasing
both inputs does not change the identifier (case-insensitivity).  The
original claim also demanded invariance under trimming surrounding
whitespace; the code instead replaces every space by an underscore before
hashing, so surrounding whitespace changes the hashed text (see the
counterexample). -/
theorem identifier_normalization :
    (∀ n a n' a' : String, n = n' → a = a' →
      generate_vinyl_id n a = generate_vinyl_id n' a') ∧
    (∀ n a : String,
      generate_vinyl_id n a = generate_vinyl_id (pyLower n) (pyLower a)) := by
  refine ⟨fun n a n' a' hn ha => by rw [hn, ha], fun n a => ?_⟩
  have hlower : lowerCp ∘ lowerCp = lowerCp := funext lowerCp_idem
  have key : (codepoints (pyLower n) ++ [95] ++ codepoints (pyLower a)).map lowerCp =
      (codepoints n ++ [95] ++ codepoints a).map lowerCp := by
    rw [codepoints_pyLower, codepoints_pyLower]
    simp only [List.map_append, List.map_map, hlower]
  unfold generate_vinyl_id
  rw [key]

/-- Witness for C1's amended statement at a concrete record name. -/
theorem identifier_normalization_witness :
    generate_vinyl_id "Abbey Road" "The Beatles" =
      generate_vinyl_id "Abbey Road" "The Beatles" ∧
    generate_vinyl_id "Abbey Road" "The Beatles" =
      generate_vinyl_id (pyLower "Abbey Road") (pyLower "The Beatles") :=
  ⟨identifier_normalization.1 "Abbey Road" "The Beatles" "Abbey Road" "The Beatles"
      rfl rfl,
   identifier_normalization.2 "Abbey Road" "The Beatles"⟩

/-- Counterexample to C1 as stated: with name `"foo "` (trailing space) and
artist `"bar"`, the identifier differs from the identifier of the trimmed
lowercased inputs, because `_generate_vinyl_id` replaces the space with an
underscore instead of trimming it (`md5("foo__bar")` vs `md5("foo_bar")`). -/
theorem identifier_not_trim_invariant :
    ¬ (generate_vinyl_id "foo " "bar" =
       generate_vinyl_id (pyLower (pyStrip "foo ")) (pyLower (pyStrip "bar"))) := by
  decide

/-! ## C2: the upsert -/

theorem record_to_row_col0 (v : Vinyl) :
    (record_to_row v).getD 0 "" = v.vinyl_id.getD "" := rfl

theorem findIdxFrom_eq_none_iff (id : String) :
    ∀ (k : Nat) (rows : List (List String)),
      findIdxFrom id k rows = none ↔ ∀ row ∈ rows, row.getD 0 "" ≠ id := by
  intro k rows
  induction rows generalizing k with
  | nil => simp [findIdxFrom]
  | cons r rest ih =>
    unfold findIdxFrom
    by_cases hr : r.getD 0 "" = id
    · rw [if_pos hr]
      constructor
      · intro hc
        exact nomatch hc
      · intro hall
        exact ((hall r (by simp)) hr).elim
    · rw [if_neg hr, ih (k + 1)]
      constructor
      · intro h row hmem
        rcases List.mem_cons.mp hmem with rfl | hm
        · exact hr
        · exact h row hm
      · intro h row hm
        exact h row (List.mem_cons_of_mem r hm)

theorem findIdxFrom_cons (id : String) (k : Nat) (r : List String)
    (rest : List (List String)) :
    findIdxFrom id k (r :: rest) =
      if r.getD 0 "" = id then some k else findIdxFrom id (k + 1) rest := rfl

theorem findIdxFrom_append_no_match (id : String) (l1 l2 : List (List String))
    (h : ∀ row ∈ l1, row.getD 0 "" ≠ id) :
    ∀ k, findIdxFrom id k (l1 ++ l2) = findIdxFrom id (k + l1.length) l2 := by
  induction l1 with
  | nil => intro k; simp [findIdxFrom]
  | cons r rest ih =>
    intro k
    have hr : r.getD 0 "" ≠ id := h r (by simp)
    rw [List.cons_append, findIdxFrom_cons, if_neg hr,
      ih (fun row hm => h row (by simp [hm])) (k + 1), List.length_cons,
      show k + 1 + rest.length = k + (rest.length + 1) from by omega]

theorem find_first_match (id : String) (s1 : List (List String))
    (m : List String) (s2 : List (List String))
    (h1 : ∀ row ∈ s1, row.getD 0 "" ≠ id) (hm : m.getD 0 "" = id) :
    find_vinyl_by_id (s1 ++ m :: s2) id = some (s1.length + 2) := by
  unfold find_vinyl_by_id
  rw [findIdxFrom_append_no_match id s1 (m :: s2) h1 0]
  unfold findIdxFrom
  rw [if_pos hm]
  simp [Nat.zero_add]

theorem find_eq_none (id : String) (s : Sheet)
    (h : ∀ row ∈ s, row.getD 0 "" ≠ id) : find_vinyl_by_id s id = none := by
  unfold find_vinyl_by_id
  rw [(findIdxFrom_eq_none_iff id 0 s).mpr h]
  rfl

theorem upsertWith_no_match (s : Sheet) (v : Vinyl) (id : String)
    (hv : v.vinyl_id = some id) (h : ∀ row ∈ s, row.getD 0 "" ≠ id) :
    upsertWith s v = s ++ [record_to_row v] := by
  unfold upsertWith
  rw [hv, Option.getD_some, find_eq_none id s h]
  rfl

theorem upsertWith_match (s1 : List (List String)) (m : List String)
    (s2 : List (List String)) (v : Vinyl) (id : String)
    (hv : v.vinyl_id = some id) (h1 : ∀ row ∈ s1, row.getD 0 "" ≠ id)
    (hm : m.getD 0 "" = id) :
    upsertWith (s1 ++ m :: s2) v = s1 ++ record_to_row v :: s2 := by
  unfold upsertWith
  rw [hv, Option.getD_some, find_first_match id s1 m s2 h1 hm]
  show update_vinyl (s1 ++ m :: s2) (s1.length + 2) v = _
  unfold update_vinyl
  have h2 : s1.length + 2 - 2 = s1.length := by omega
  rw [h2, List.set_append_right _ _ (Nat.le_refl _), Nat.sub_self,
    List.set_cons_zero]

theorem add_or_update_eq_upsertWith (s : Sheet) (v : Vinyl) (id : String)
    (hv : v.vinyl_id = some id) (hid : id ≠ "") :
    add_or_update_vinyl s v = upsertWith s v := by
  unfold add_or_update_vinyl
  rw [hv, Option.getD_some, if_neg hid]

theorem rowsWithId_cons (id : String) (r : List String)
    (rest : List (List String)) :
    rowsWithId (r :: rest) id =
      if r.getD 0 "" = id then r :: rowsWithId rest id else rowsWithId rest id := by
  unfold rowsWithId
  rw [List.filter_cons]
  by_cases hr : r.getD 0 "" = id
  · rw [if_pos hr, if_pos (beq_iff_eq.mpr hr)]
  · rw [if_neg hr, if_neg (fun hc => hr (beq_iff_eq.mp hc))]

theorem rowsWithId_eq_nil (id : String) (s : Sheet)
    (h : ∀ row ∈ s, row.getD 0 "" ≠ id) : rowsWithId s id = [] := by
  unfold rowsWithId
  exact List.filter_eq_nil_iff.mpr fun row hm hc => h row hm (beq_iff_eq.mp hc)

theorem single_match_decomp (id : String) (s : Sheet)
    (h : (rowsWithId s id).length ≤ 1) :
    (∀ row ∈ s, row.getD 0 "" ≠ id) ∨
    ∃ s1 m s2, s = s1 ++ m :: s2 ∧ m.getD 0 "" = id ∧
      (∀ row ∈ s1, row.getD 0 "" ≠ id) ∧ (∀ row ∈ s2, row.getD 0 "" ≠ id) := by
  induction s with
  | nil => exact Or.inl (by simp)
  | cons r rest ih =>
    by_cases hr : r.getD 0 "" = id
    · right
      refine ⟨[], r, rest, by simp, hr, by simp, ?_⟩
      have hlen : (rowsWithId rest id).length = 0 := by
        rw [rowsWithId_cons, if_pos hr] at h
        simp only [List.length_cons] at h
        omega
      intro row hm hc
      have hnil : rowsWithId rest id = [] := List.length_eq_zero.mp hlen
      exact (List.filter_eq_nil_iff.mp hnil row hm) (beq_iff_eq.mpr hc)
    · rw [rowsWithId_cons, if_neg hr] at h
      rcases ih h with hnone | ⟨s1, m, s2, heq, hm, hl, hrt⟩
      · left
        intro row hmem
        rcases List.mem_cons.mp hmem with rfl | hmem'
        · exact hr
        · exact hnone row hmem'
      · right
        refine ⟨r :: s1, m, s2, by rw [heq]; rfl, hm, ?_, hrt⟩
        intro row hmem
        rcases List.mem_cons.mp hmem with rfl | hmem'
        · exact hr
        · exact hl row hmem'

theorem rowsWithId_sandwich (id : String) (s1 : List (List String))
    (x : List String) (s2 : List (List String))
    (h1 : ∀ row ∈ s1, row.getD 0 "" ≠ id) (h2 : ∀ row ∈ s2, row.getD 0 "" ≠ id)
    (hx : x.getD 0 "" = id) : rowsWithId (s1 ++ x :: s2) id = [x] := by
  have e1 : rowsWithId s1 id = [] := rowsWithId_eq_nil id s1 h1
  have e2 : rowsWithId s2 id = [] := rowsWithId_eq_nil id s2 h2
  unfold rowsWithId at e1 e2 ⊢
  rw [List.filter_append, List.filter_cons, e1, e2,
    if_pos (beq_iff_eq.mpr hx)]
  rfl

/-- C2 (amended): on a catalog state in which at most one data row bears
the record's identifier, upserting twice with records sharing that
(non-empty) identifier leaves exactly one row bearing it, and that row is
the full codec output of the second record (full-row replace); moreover,
when the identifier is not yet present, the upsert appends the new row
right after the existing data.  The original claim quantified over every
catalog state; a state that already holds two rows with the same
identifier keeps both (see the counterexample), which forces the
at-most-one hypothesis. -/
theorem upsert_last_writer_wins (s : Sheet) (r1 r2 : Vinyl) (id : String)
    (h1 : r1.vinyl_id = some id) (h2 : r2.vinyl_id = some id) (hid : id ≠ "")
    (huniq : (rowsWithId s id).length ≤ 1) :
    rowsWithId (add_or_update_vinyl (add_or_update_vinyl s r1) r2) id =
      [record_to_row r2] ∧
    ((∀ row ∈ s, row.getD 0 "" ≠ id) →
      add_or_update_vinyl s r1 = s ++ [record_to_row r1]) := by
  have hrow1 : (record_to_row r1).getD 0 "" = id := by
    rw [record_to_row_col0, h1, Option.getD_some]
  have e1 : ∀ t, add_or_update_vinyl t r1 = upsertWith t r1 :=
    fun t => add_or_update_eq_upsertWith t r1 id h1 hid
  have e2 : ∀ t, add_or_update_vinyl t r2 = upsertWith t r2 :=
    fun t => add_or_update_eq_upsertWith t r2 id h2 hid
  refine ⟨?_, fun hnone => by rw [e1, upsertWith_no_match s r1 id h1 hnone]⟩
  rcases single_match_decomp id s huniq with hnone | ⟨s1, m, s2, heq, hm, hl, hr⟩
  · rw [e1, upsertWith_no_match s r1 id h1 hnone, e2]
    have : s ++ [record_to_row r1] = s ++ record_to_row r1 :: [] := rfl
    rw [this, upsertWith_match s (record_to_row r1) [] r2 id h2 hnone hrow1]
    exact rowsWithId_sandwich id s (record_to_row r2) [] hnone (by simp)
      (by rw [record_to_row_col0, h2, Option.getD_some])
  · subst heq
    rw [e1, upsertWith_match s1 m s2 r1 id h1 hl hm, e2,
      upsertWith_match s1 (record_to_row r1) s2 r2 id h2 hl hrow1]
    exact rowsWithId_sandwich id s1 (record_to_row r2) s2 hl hr
      (by rw [record_to_row_col0, h2, Option.getD_some])

/-- Witness for C2's amended statement: a fresh identifier over a one-row
catalog, upserted twice. -/
theorem upsert_last_writer_wins_witness :
    (("K1" : String) ≠ "" ∧
      (rowsWithId [["other"]] "K1").length ≤ 1) ∧
    rowsWithId
      (add_or_update_vinyl
        (add_or_update_vinyl [["other"]]
          { nome := "n1", artista := "a", vinyl_id := some "K1" })
        { nome := "n2", artista := "a", vinyl_id := some "K1" }) "K1" =
      [record_to_row { nome := "n2", artista := "a", vinyl_id := some "K1" }] :=
  ⟨⟨by decide, by decide⟩,
    (upsert_last_writer_wins [["other"]]
      { nome := "n1", artista := "a", vinyl_id := some "K1" }
      { nome := "n2", artista := "a", vinyl_id := some "K1" } "K1"
      rfl rfl (by decide) (by decide)).1⟩

/-- Counterexample to C2 as stated: on a catalog state that already holds
two rows bearing identifier `"X1"`, upserting twice with a record of that
identifier still leaves two rows bearing it (only the first is
overwritten), not exactly one. -/
theorem upsert_duplicate_state_counterexample :
    (rowsWithId
      (add_or_update_vinyl
        (add_or_update_vinyl [["X1"], ["X1"]]
          { nome := "n", artista := "a", vinyl_id := some "X1" })
        { nome := "n", artista := "a", vinyl_id := some "X1" }) "X1").length = 2 := by
  decide

end VinylCatalog
